import Mathlib

/-!
Verification of the deep-research service against its specification.

Part A embeds the HTTP task layer from `src/server.ts` together with the
request schema and task record types from its `types` module.  Part B models
the recursive research core (`deepResearch`, imported by the server but not
part of the visible sources) from the specification's §4 algorithm.  Part C
proves the stated properties.
-/

/-! ## Part A: the HTTP task layer (`src/server.ts`, `types.ts`) -/

/-- Status of a stored research task (`types.ts`: `'running' | 'completed' | 'failed'`). -/
inductive TaskStatus where
  | running
  | completed
  | failed
deriving Repr, DecidableEq

/-- `ResearchProgress` from `types.ts`: the progress snapshot shape. -/
structure ResearchProgress where
  currentDepth : Int
  totalDepth : Int
  currentBreadth : Int
  totalBreadth : Int
  currentQuery : Option String
  totalQueries : Int
  completedQueries : Int
deriving Repr, DecidableEq

/-- The `ProgressManager` object held by a task; `update` appends the received
snapshot.  Only its presence and the updates it has received matter to the
server code. -/
structure ProgressManager where
  updates : List ResearchProgress
deriving Repr, DecidableEq

/-- `ResearchTask` from `types.ts`. `startTime`/`endTime` are epoch timestamps. -/
structure ResearchTask where
  id : String
  query : String
  depth : Int
  breadth : Int
  status : TaskStatus
  error : Option String := none
  startTime : Nat
  endTime : Option Nat := none
  results : Option (List String) := none
  progress : Option ProgressManager := none
deriving Repr, DecidableEq

/-- A JSON field of the request body as zod sees it: absent, a string, an
integer number, a non-integer number, or a value of any other type. -/
inductive JField where
  | missing
  | str (s : String)
  | int (n : Int)
  | nonIntNum
  | other
deriving Repr, DecidableEq

/-- The raw body of a POST /research request (the three fields the schema reads). -/
structure RequestBody where
  query : JField
  depth : JField
  breadth : JField
deriving Repr, DecidableEq

/-- A parsed research request (`z.infer<typeof ResearchRequestSchema>`). -/
structure ResearchRequest where
  query : String
  depth : Int
  breadth : Int
deriving Repr, DecidableEq

/-- `query: z.string().min(1).max(1000)` — the field must be a string of length
1..1000. -/
def parseQueryField : JField → Except String String
  | .str s => if 1 ≤ s.length ∧ s.length ≤ 1000 then .ok s else .error "query: invalid length"
  | _ => .error "query: expected string"

/-- `z.number().int().min(1).max(5).optional().default(3)` — absent defaults
to 3; otherwise the field must be an integer in 1..5. -/
def parseBoundedIntField (name : String) : JField → Except String Int
  | .missing => .ok 3
  | .int n => if 1 ≤ n ∧ n ≤ 5 then .ok n else .error (name ++ ": out of range")
  | .nonIntNum => .error (name ++ ": expected integer")
  | _ => .error (name ++ ": expected number")

/-- `ResearchRequestSchema.safeParse`: validates the three fields, collecting
every issue; success yields the parsed request. -/
def ResearchRequestSchema.safeParse (b : RequestBody) : Except (List String) ResearchRequest :=
  match parseQueryField b.query, parseBoundedIntField "depth" b.depth,
        parseBoundedIntField "breadth" b.breadth with
  | .ok q, .ok d, .ok br => .ok ⟨q, d, br⟩
  | rq, rd, rb =>
    .error ((match rq with | .error e => [e] | .ok _ => []) ++
            (match rd with | .error e => [e] | .ok _ => []) ++
            (match rb with | .error e => [e] | .ok _ => []))

/-- The task store: a `Map<string, ResearchTask>` as an insertion-ordered
association list. -/
abbrev Tasks : Type := List (String × ResearchTask)

/-- `tasks.set(key, value)`: replace in place if the key exists, else append
(JS `Map.set` preserves insertion order). -/
def setTask : Tasks → String → ResearchTask → Tasks
  | [], k, v => [(k, v)]
  | (k', v') :: rest, k, v =>
    if k' = k then (k, v) :: rest else (k', v') :: setTask rest k v

/-- `tasks.get(key)`. -/
def getTask (ts : Tasks) (k : String) : Option ResearchTask := List.lookup k ts

/-- Apply `f` to the task stored under `k`, when present (models in-place
mutation of the fetched task object). -/
def updateTask : Tasks → String → (ResearchTask → ResearchTask) → Tasks
  | [], _, _ => []
  | (k', v') :: rest, k, f =>
    if k' = k then (k', f v') :: rest else (k', v') :: updateTask rest k f

/-- `Array.from(tasks.values()).filter(t => t.status === 'running').length`. -/
def runningCount (ts : Tasks) : Nat :=
  (ts.filter (fun p => p.2.status = TaskStatus.running)).length

/-- Server configuration (`MAX_CONCURRENT_TASKS`). -/
structure ServerConfig where
  maxConcurrentTasks : Nat
deriving Repr, DecidableEq

/-- The response of POST /research. -/
inductive PostResponse where
  | badRequest (issues : List String)
  | tooManyTasks
  | accepted (taskId : String) (query : String) (depth breadth : Int)
deriving Repr, DecidableEq

/-- Outcome of one POST /research call: the HTTP response, the task store
afterwards, and the request `deepResearch` was started with (if any). -/
structure PostOutcome where
  response : PostResponse
  tasks : Tasks
  dispatched : Option ResearchRequest
deriving DecidableEq

/-- The POST /research handler up to the point where `deepResearch` is started
in the background: validate, enforce the concurrency cap, store the new task
with status `'running'` and no `progress` field, and dispatch. -/
def handlePostResearch (cfg : ServerConfig) (ts : Tasks) (body : RequestBody)
    (taskId : String) (now : Nat) : PostOutcome :=
  match ResearchRequestSchema.safeParse body with
  | .error issues => ⟨.badRequest issues, ts, none⟩
  | .ok r =>
    if runningCount ts ≥ cfg.maxConcurrentTasks then
      ⟨.tooManyTasks, ts, none⟩
    else
      let task : ResearchTask :=
        { id := taskId, query := r.query, depth := r.depth, breadth := r.breadth,
          status := .running, startTime := now }
      ⟨.accepted taskId r.query r.depth r.breadth, setTask ts taskId task, some r⟩

/-- The `.then` continuation of the background `deepResearch` call: mark the
task completed, stamp `endTime`, store the learnings. -/
def onResearchSuccess (ts : Tasks) (taskId : String) (learnings : List String)
    (now : Nat) : Tasks :=
  match getTask ts taskId with
  | some _ => updateTask ts taskId (fun t =>
      { t with status := .completed, endTime := some now, results := some learnings })
  | none => ts

/-- The `.catch` continuation: mark the task failed and store the error message. -/
def onResearchFailure (ts : Tasks) (taskId : String) (msg : String) (now : Nat) : Tasks :=
  match getTask ts taskId with
  | some _ => updateTask ts taskId (fun t =>
      { t with status := .failed, error := some msg, endTime := some now })
  | none => ts

/-- The `onProgress` callback passed to `deepResearch`: it forwards the
snapshot to `task.progress.update` only when the task exists and already has a
`progress` field. -/
def onProgressCallback (ts : Tasks) (taskId : String) (p : ResearchProgress) : Tasks :=
  match getTask ts taskId with
  | some t =>
    match t.progress with
    | some pm => updateTask ts taskId (fun u => { u with progress := some ⟨pm.updates ++ [p]⟩ })
    | none => ts
  | none => ts

/-- The GET /research/:taskId handler: 404 when absent, otherwise the task
with `progress` kept only while running and `results` only when completed. -/
def handleGetStatus (ts : Tasks) (taskId : String) : Option ResearchTask :=
  match getTask ts taskId with
  | none => none
  | some t =>
    some { t with
      progress := if t.status = .running ∧ t.progress.isSome then t.progress else none,
      results := if t.status = .completed then t.results else none }

/-- `parseInt(x) || d`: the parsed value unless it is `NaN` (modelled as
`none`) or `0`, in which case the default applies. -/
def jsOrDefault (v : Option Int) (d : Int) : Int :=
  match v with
  | some n => if n = 0 then d else n
  | none => d

/-- JS `Array.prototype.slice(start, stop)` with clamping and negative indices
counting from the end. -/
def jsSlice {α : Type} (l : List α) (start stop : Int) : List α :=
  let len : Int := l.length
  let s := if start < 0 then max (len + start) 0 else min start len
  let e := if stop < 0 then max (len + stop) 0 else min stop len
  (l.take e.toNat).drop s.toNat

/-- `Math.ceil(total / limit)` for a nonnegative total and nonzero limit: ceil
division when the limit is positive, truncation toward zero when negative. -/
def jsCeilDiv (total : Nat) (limit : Int) : Int :=
  if 0 < limit then ((total : Int) + limit - 1) / limit
  else Int.tdiv (total : Int) limit

/-- Descending comparison on task start times, the sort order of the listing
endpoint (`(a, b) => b.startTime.getTime() - a.startTime.getTime()`). -/
def taskDescOrder (a b : ResearchTask) : Prop := b.startTime ≤ a.startTime

instance : DecidableRel taskDescOrder := fun a b => Nat.decLe b.startTime a.startTime

instance : IsTotal ResearchTask taskDescOrder := ⟨fun a b => Nat.le_total b.startTime a.startTime⟩

instance : IsTrans ResearchTask taskDescOrder :=
  ⟨fun _ _ _ h1 h2 => Nat.le_trans h2 h1⟩

/-- Pagination block of the listing response. -/
structure Pagination where
  page : Int
  limit : Int
  total : Nat
  pages : Int
deriving Repr, DecidableEq

/-- Response of GET /research. -/
structure ListView where
  tasks : List ResearchTask
  pagination : Pagination
deriving Repr, DecidableEq

/-- The GET /research listing handler: default page 1, limit capped at 50
(default 10), optional status filter, sort by start time descending, slice. -/
def handleListTasks (ts : Tasks) (pageQ limitQ : Option Int)
    (statusQ : Option TaskStatus) : ListView :=
  let page := jsOrDefault pageQ 1
  let limit := min (jsOrDefault limitQ 10) 50
  let taskList := ts.map Prod.snd
  let taskList :=
    match statusQ with
    | some s => taskList.filter (fun t => t.status = s)
    | none => taskList
  let total := taskList.length
  let pages := jsCeilDiv total limit
  let offset := (page - 1) * limit
  let sorted := List.insertionSort taskDescOrder taskList
  ⟨jsSlice sorted offset (offset + limit), ⟨page, limit, total, pages⟩⟩

/-! ## Part B: the recursive research core

The server imports `deepResearch` from `./deep-research`, a module not among
the visible sources; the definitions below are therefore modelled from the
specification (§3, §4, §7). -/

/-- Modelled from the spec: a `SubQuery` produced by the Query Planner (§3). -/
structure SubQuery where
  text : String
  researchGoal : String
deriving Repr, DecidableEq

/-- Modelled from the spec: a `Finding` produced by the Finding Extractor (§3). -/
structure Finding where
  learnings : List String
  followUpQuestions : List String
deriving Repr, DecidableEq

/-- Modelled from the spec: a document returned by the Content Source Adapter
(§4.1). -/
structure Document where
  text : String
  sourceId : String
deriving Repr, DecidableEq

/-- Modelled from the spec: the terminal `ResearchResult` artifact (§3). -/
structure ResearchResult where
  learnings : List String
  sources : List String
deriving Repr, DecidableEq

/-- Modelled from the spec: the run's shared `ProgressState` (§3); the
depth/breadth display fields are omitted — the stated properties constrain
only the query counters and the current query text. -/
structure ProgressState where
  totalQueries : Nat
  completedQueries : Nat
  currentQuery : Option String := none
deriving Repr, DecidableEq

/-- Modelled from the spec: the failure taxonomy of §7. -/
inductive Failure where
  | adapterFailure (msg : String)
  | planningFailure (msg : String)
  | extractionFailure (msg : String)
  | configFailure (msg : String)
deriving Repr, DecidableEq

/-- Modelled from the spec: the three external capabilities the core depends
on but does not implement (§4.1–§4.3, §6), each fallible. -/
structure Oracles where
  plan : String → List String → Nat → Except Failure (List SubQuery)
  fetch : String → Except Failure (List Document)
  extract : SubQuery → List Document → Except Failure Finding

/-- Case/whitespace-normalized form of a query text, the comparison key for
sibling de-duplication (§4.4 edge cases). -/
def normalizeQuery (s : String) : List Char :=
  (s.data.filter (fun c => !c.isWhitespace)).map Char.toLower

/-- Keep the first sub-query of each normalized text, dropping later
duplicates (`seen` holds the keys already taken). -/
def dedupSiblingsAux (seen : List (List Char)) : List SubQuery → List SubQuery
  | [] => []
  | q :: rest =>
    if normalizeQuery q.text ∈ seen then dedupSiblingsAux seen rest
    else q :: dedupSiblingsAux (normalizeQuery q.text :: seen) rest

/-- Drop sub-queries whose normalized text was already seen in the sibling
set, keeping first occurrences in order (§4.4 edge cases). -/
def dedupSiblings (qs : List SubQuery) : List SubQuery := dedupSiblingsAux [] qs

/-- Keep the first occurrence of each string, dropping later exact-text
duplicates (`seen` holds the strings already taken). -/
def dedupAux (seen : List String) : List String → List String
  | [] => []
  | x :: rest => if x ∈ seen then dedupAux seen rest else x :: dedupAux (x :: seen) rest

/-- Exact-text de-duplication preserving first-seen order. -/
def dedupList (xs : List String) : List String := dedupAux [] xs

/-- Modelled from the spec: the Result Merger (§4.6) — union of all learnings
(first-seen order preserved) and all sources, deduplicated by exact match. -/
def mergeResults (rs : List ResearchResult) : ResearchResult :=
  ⟨dedupList (rs.map ResearchResult.learnings).flatten,
   dedupList (rs.map ResearchResult.sources).flatten⟩

/-- What one frame of the recursion returns: its merged `ResearchResult`, the
progress state after it, the successive progress snapshots it produced, the
sub-queries dispatched in its subtree, and how many child frames it spawned. -/
structure FrameOut where
  result : ResearchResult
  progress : ProgressState
  trace : List ProgressState
  dispatched : List SubQuery
  spawnedChildren : Nat
deriving Repr, DecidableEq

instance : Inhabited FrameOut := ⟨⟨⟨[], []⟩, ⟨0, 0, none⟩, [], [], 0⟩⟩

/-- The recursive entry a parent hands to each follow-up question: topic,
accumulated learnings, progress state in, frame output out. -/
def ChildFun : Type := String → List String → ProgressState → FrameOut

/-- Raw (pre-merge) output of a block of units or child frames. -/
structure StepOut where
  learnings : List String
  sources : List String
  progress : ProgressState
  trace : List ProgressState
  dispatched : List SubQuery
  spawnedChildren : Nat
deriving Repr, DecidableEq

/-- Modelled from the spec: one Fetch-then-Extract unit of work (§4.4 step 2);
an adapter or extractor failure is normalized to an empty contribution (§7),
a success contributes the finding and the documents' source identifiers. -/
def runUnit (O : Oracles) (q : SubQuery) : Finding × List String :=
  match O.fetch q.text with
  | .error _ => (⟨[], []⟩, [])
  | .ok docs =>
    match O.extract q docs with
    | .error _ => (⟨[], []⟩, [])
    | .ok f => (f, docs.map Document.sourceId)

/-- Modelled from the spec: spawn one child frame per follow-up question
(§4.4 step 3), each child receiving the parent's accumulated learnings. -/
def runChildren (child : ChildFun) (acc : List String) :
    List String → ProgressState → StepOut
  | [], st => ⟨[], [], st, [], [], 0⟩
  | f :: rest, st =>
    let o1 := child f acc st
    let o2 := runChildren child acc rest o1.progress
    ⟨o1.result.learnings ++ o2.learnings, o1.result.sources ++ o2.sources, o2.progress,
     o1.trace ++ o2.trace, o1.dispatched ++ o2.dispatched,
     (1 + o1.spawnedChildren) + o2.spawnedChildren⟩

/-- Modelled from the spec: process a frame's dispatched sub-queries (§4.4
steps 2–4).  Each unit completes (success or failure), increments
`completedQueries`, records the current query text, and — when a child entry
is available — recurses into its follow-up questions. -/
def runQueries (O : Oracles) (childOpt : Option ChildFun) (acc : List String) :
    List SubQuery → ProgressState → StepOut
  | [], st => ⟨[], [], st, [], [], 0⟩
  | q :: rest, st =>
    let u := runUnit O q
    let st1 : ProgressState :=
      { st with completedQueries := st.completedQueries + 1, currentQuery := some q.text }
    let co : StepOut :=
      match childOpt with
      | some child => runChildren child (acc ++ u.1.learnings) u.1.followUpQuestions st1
      | none => ⟨[], [], st1, [], [], 0⟩
    let ro := runQueries O childOpt acc rest co.progress
    ⟨u.1.learnings ++ (co.learnings ++ ro.learnings),
     u.2 ++ (co.sources ++ ro.sources), ro.progress,
     st1 :: (co.trace ++ ro.trace),
     q :: (co.dispatched ++ ro.dispatched),
     co.spawnedChildren + ro.spawnedChildren⟩

/-- A frame that does no external work: it merges its accumulated learnings
only (§4.4 step 1 leaf, depth-0 entry, or planner failure per §4.2). -/
def leafOut (acc : List String) (st : ProgressState) : FrameOut :=
  ⟨mergeResults [⟨acc, []⟩], st, [], [], 0⟩

/-- Modelled from the spec: the Recursion Controller frame algorithm (§4.4).
Planning with `maxQueries = breadthRemaining`; sibling de-duplication; on a
non-empty plan, `totalQueries` grows by the dispatched count before the units
run; children are spawned only when `depthRemaining > 1`, each with depth one
less and breadth `max 1 (breadth / 2)`; merging de-duplicates learnings and
sources. -/
def runFrame (O : Oracles) : Nat → Nat → String → List String → ProgressState → FrameOut
  | 0, _, _, acc, st => leafOut acc st
  | d + 1, breadth, topic, acc, st =>
    match O.plan topic acc breadth with
    | .error _ => leafOut acc st
    | .ok qs0 =>
      let qs := dedupSiblings qs0
      if qs.isEmpty then leafOut acc st
      else
        let st1 : ProgressState := { st with totalQueries := st.totalQueries + qs.length }
        let childOpt : Option ChildFun :=
          if d = 0 then none
          else some (fun t a s => runFrame O d (max 1 (breadth / 2)) t a s)
        let so := runQueries O childOpt acc qs st1
        ⟨mergeResults [⟨acc, []⟩, ⟨so.learnings, so.sources⟩],
         so.progress, st1 :: so.trace, so.dispatched, so.spawnedChildren⟩

/-- The progress state a run starts from. -/
def initialProgress : ProgressState := ⟨0, 0, none⟩

/-- Modelled from the spec: the top-level `deepResearch` entry (§6, §7) —
configuration bounds on depth and breadth fail fast; otherwise the root frame
runs with empty accumulated learnings and fresh progress. -/
def deepResearch (O : Oracles) (query : String) (depth breadth : Nat) :
    Except Failure FrameOut :=
  if 1 ≤ depth ∧ depth ≤ 5 ∧ 1 ≤ breadth ∧ breadth ≤ 5 then
    Except.ok (runFrame O depth breadth query [] initialProgress)
  else
    Except.error (Failure.configFailure "invalid depth or breadth")

/-- An oracle transformer discarding every follow-up question the extractor
produces; used to state that a depth-1 run never consumes follow-ups. -/
def stripFollowUps (O : Oracles) : Oracles :=
  { O with extract := fun q docs =>
      match O.extract q docs with
      | .ok f => .ok ⟨f.learnings, []⟩
      | .error e => .error e }

/-- The progress invariant: completed queries never exceed the total estimate. -/
def ProgressOk (st : ProgressState) : Prop :=
  st.completedQueries ≤ st.totalQueries

/-- The accounting contract of one frame run from state `st`: the total and
completed counters both grow by exactly the number of sub-queries dispatched
in the subtree (so each dispatched sub-query completes exactly once and the
pending difference is preserved), and every emitted snapshot satisfies the
progress invariant whenever the entry state does. -/
def FrameSpec (st : ProgressState) (o : FrameOut) : Prop :=
  o.progress.totalQueries = st.totalQueries + o.dispatched.length
  ∧ o.progress.completedQueries = st.completedQueries + o.dispatched.length
  ∧ (ProgressOk st → ∀ s ∈ o.trace, ProgressOk s)

/-! ### Concrete fixtures used by the witnesses -/

/-- A store holding one running task (the concurrency cap fixtures). -/
def fullStore : Tasks :=
  [("t0", { id := "t0", query := "q0", depth := 3, breadth := 3,
            status := .running, startTime := 0 })]

/-- A store with three tasks of distinct statuses and start times. -/
def demoStore : Tasks :=
  [("t0", { id := "t0", query := "a", depth := 3, breadth := 3,
            status := .running, startTime := 5 }),
   ("t1", { id := "t1", query := "b", depth := 2, breadth := 2,
            status := .completed, startTime := 9 }),
   ("t2", { id := "t2", query := "c", depth := 1, breadth := 1,
            status := .failed, startTime := 7 })]

/-- Stub oracles: two sub-queries at the root topic, none below; one document
per fetch; one learning per document plus one follow-up question. -/
def demoOracles : Oracles where
  plan := fun topic _ _ =>
    if topic = "root" then Except.ok [⟨"A", "goal A"⟩, ⟨"B", "goal B"⟩]
    else Except.ok []
  fetch := fun s => Except.ok [⟨"text about " ++ s, "source-" ++ s⟩]
  extract := fun q docs =>
    Except.ok ⟨docs.map (fun d => "fact: " ++ d.text), [q.text ++ " next"]⟩

/-- Oracles whose content source always fails. -/
def failingOracles : Oracles where
  plan := fun _ _ _ => Except.ok [⟨"A", "goal"⟩]
  fetch := fun _ => Except.error (Failure.adapterFailure "network down")
  extract := fun _ _ => Except.ok ⟨[], []⟩

/-- The resolved output of a depth-2 breadth-2 demo run. -/
def demoRunOut : FrameOut := (deepResearch demoOracles "root" 2 2).toOption.getD default

/-- The resolved output of a depth-1 breadth-2 demo run. -/
def demoDepthOneOut : FrameOut :=
  (deepResearch demoOracles "root" 1 2).toOption.getD default

/-- The resolved output of a run whose adapter always fails. -/
def failingRunOut : FrameOut :=
  (deepResearch failingOracles "root" 3 3).toOption.getD default

/-! ## Part C: properties -/

/-! ### Task-store lemmas -/

lemma getTask_setTask_self (ts : Tasks) (k : String) (v : ResearchTask) :
    getTask (setTask ts k v) k = some v := by
  induction ts with
  | nil => simp [getTask, setTask, List.lookup]
  | cons p rest ih =>
    obtain ⟨k', v'⟩ := p
    by_cases h : k' = k
    · subst h; simp [getTask, setTask, List.lookup]
    · have hne : (k == k') = false := beq_eq_false_iff_ne.mpr (Ne.symm h)
      simpa [getTask, setTask, List.lookup, h, hne] using ih

lemma getTask_updateTask (ts : Tasks) (k : String) (f : ResearchTask → ResearchTask) :
    getTask (updateTask ts k f) k = (getTask ts k).map f := by
  induction ts with
  | nil => simp [getTask, updateTask, List.lookup]
  | cons p rest ih =>
    obtain ⟨k', v'⟩ := p
    by_cases h : k' = k
    · subst h; simp [getTask, updateTask, List.lookup]
    · have hne : (k == k') = false := beq_eq_false_iff_ne.mpr (Ne.symm h)
      simpa [getTask, updateTask, List.lookup, h, hne] using ih

lemma handlePost_accepted (cfg : ServerConfig) (ts : Tasks) (body : RequestBody)
    (tid : String) (now : Nat) (r : ResearchRequest)
    (hok : ResearchRequestSchema.safeParse body = .ok r)
    (hcap : runningCount ts < cfg.maxConcurrentTasks) :
    handlePostResearch cfg ts body tid now =
      ⟨.accepted tid r.query r.depth r.breadth,
       setTask ts tid
         { id := tid, query := r.query, depth := r.depth, breadth := r.breadth,
           status := .running, startTime := now },
       some r⟩ := by
  unfold handlePostResearch
  rw [hok]
  simp only [ge_iff_le, if_neg (by omega : ¬ cfg.maxConcurrentTasks ≤ runningCount ts)]

/-! ### Claim C1 -/

/-- Claim C1: every POST /research request whose body fails validation is
answered with a 400 response carrying the validation issues, the task store is
unchanged, and `deepResearch` is never started. -/
theorem post_invalid_body_returns_400 (cfg : ServerConfig) (ts : Tasks)
    (body : RequestBody) (tid : String) (now : Nat) (issues : List String)
    (h : ResearchRequestSchema.safeParse body = .error issues) :
    handlePostResearch cfg ts body tid now = ⟨.badRequest issues, ts, none⟩ := by
  unfold handlePostResearch
  rw [h]

/-- Witness for C1: a body with a missing query, out-of-range depth and
non-numeric breadth is rejected with its three issues and no task stored. -/
theorem post_invalid_body_returns_400_witness :
    ResearchRequestSchema.safeParse ⟨.missing, .int 6, .str "x"⟩ =
      .error ["query: expected string", "depth: out of range", "breadth: expected number"]
    ∧ handlePostResearch ⟨5⟩ fullStore ⟨.missing, .int 6, .str "x"⟩ "t9" 3 =
      ⟨.badRequest ["query: expected string", "depth: out of range",
                    "breadth: expected number"], fullStore, none⟩ :=
  ⟨rfl, post_invalid_body_returns_400 ⟨5⟩ fullStore ⟨.missing, .int 6, .str "x"⟩ "t9" 3 _ rfl⟩

/-! ### Claim C2 -/

/-- Counterexample to claim C2 as stated: a request with an invalid body that
arrives while the store is at the concurrency cap is answered 400, not 429 —
validation runs before the capacity check. -/
theorem post_full_capacity_not_always_429 :
    ServerConfig.maxConcurrentTasks ⟨1⟩ ≤ runningCount fullStore
    ∧ (handlePostResearch ⟨1⟩ fullStore ⟨.missing, .missing, .missing⟩ "t9" 3).response =
        .badRequest ["query: expected string"]
    ∧ (handlePostResearch ⟨1⟩ fullStore ⟨.missing, .missing, .missing⟩ "t9" 3).response ≠
        .tooManyTasks := by
  refine ⟨by decide, rfl, by decide⟩

/-- Claim C2 (amended): every POST /research request whose body passes
validation and which arrives while the number of running tasks has reached the
configured maximum is answered 429, with the task store unchanged and no
research work started. -/
theorem post_valid_body_full_capacity_returns_429 (cfg : ServerConfig) (ts : Tasks)
    (body : RequestBody) (tid : String) (now : Nat) (r : ResearchRequest)
    (hok : ResearchRequestSchema.safeParse body = .ok r)
    (hfull : cfg.maxConcurrentTasks ≤ runningCount ts) :
    handlePostResearch cfg ts body tid now = ⟨.tooManyTasks, ts, none⟩ := by
  simp [handlePostResearch, hok, hfull]

/-- Witness for the amended C2: a valid request against a store already holding
the maximum number of running tasks. -/
theorem post_valid_body_full_capacity_returns_429_witness :
    ResearchRequestSchema.safeParse ⟨.str "hello", .missing, .missing⟩ = .ok ⟨"hello", 3, 3⟩
    ∧ ServerConfig.maxConcurrentTasks ⟨1⟩ ≤ runningCount fullStore
    ∧ handlePostResearch ⟨1⟩ fullStore ⟨.str "hello", .missing, .missing⟩ "t9" 3 =
        ⟨.tooManyTasks, fullStore, none⟩ :=
  ⟨rfl, by decide,
   post_valid_body_full_capacity_returns_429 ⟨1⟩ fullStore
     ⟨.str "hello", .missing, .missing⟩ "t9" 3 ⟨"hello", 3, 3⟩ rfl (by decide)⟩

/-! ### Claim C3 -/

/-- Claim C3: for a task started by POST /research, resolution of the
`deepResearch` promise marks the stored task completed with `endTime` stamped
and `results` set to the learnings, and rejection marks it failed with the
error message stored (and `endTime` stamped). -/
theorem task_settlement_updates_store (cfg : ServerConfig) (ts : Tasks)
    (body : RequestBody) (tid : String) (now t1 t2 : Nat)
    (ls : List String) (msg : String) (r : ResearchRequest)
    (hok : ResearchRequestSchema.safeParse body = .ok r)
    (hcap : runningCount ts < cfg.maxConcurrentTasks) :
    getTask (onResearchSuccess (handlePostResearch cfg ts body tid now).tasks tid ls t1) tid =
      some { id := tid, query := r.query, depth := r.depth, breadth := r.breadth,
             status := .completed, error := none, startTime := now, endTime := some t1,
             results := some ls, progress := none }
    ∧ getTask (onResearchFailure (handlePostResearch cfg ts body tid now).tasks tid msg t2) tid =
      some { id := tid, query := r.query, depth := r.depth, breadth := r.breadth,
             status := .failed, error := some msg, startTime := now, endTime := some t2,
             results := none, progress := none } := by
  rw [handlePost_accepted cfg ts body tid now r hok hcap]
  have hget := getTask_setTask_self ts tid
    { id := tid, query := r.query, depth := r.depth, breadth := r.breadth,
      status := .running, startTime := now }
  constructor
  · unfold onResearchSuccess
    rw [hget]
    rw [getTask_updateTask, hget]
    rfl
  · unfold onResearchFailure
    rw [hget]
    rw [getTask_updateTask, hget]
    rfl

/-- Witness for C3: a concrete accepted task settles to completed with results
on success and to failed with the message on failure. -/
theorem task_settlement_updates_store_witness :
    ResearchRequestSchema.safeParse ⟨.str "hello", .missing, .missing⟩ = .ok ⟨"hello", 3, 3⟩
    ∧ runningCount [] < ServerConfig.maxConcurrentTasks ⟨5⟩
    ∧ getTask (onResearchSuccess
        (handlePostResearch ⟨5⟩ [] ⟨.str "hello", .missing, .missing⟩ "t1" 10).tasks
        "t1" ["fact"] 20) "t1" =
      some { id := "t1", query := "hello", depth := 3, breadth := 3,
             status := .completed, error := none, startTime := 10, endTime := some 20,
             results := some ["fact"], progress := none } :=
  ⟨rfl, by decide,
   (task_settlement_updates_store ⟨5⟩ [] ⟨.str "hello", .missing, .missing⟩ "t1" 10 20 30
     ["fact"] "boom" ⟨"hello", 3, 3⟩ rfl (by decide)).1⟩

/-! ### Claim C8 -/

/-- Claim C8: a task created by POST /research is stored without a `progress`
manager; the `onProgress` callback therefore drops every update (the store is
unchanged), and GET /research/:taskId reports no progress even while the task
is running. -/
theorem progress_updates_dropped (cfg : ServerConfig) (ts : Tasks) (body : RequestBody)
    (tid : String) (now : Nat) (r : ResearchRequest) (p : ResearchProgress)
    (hok : ResearchRequestSchema.safeParse body = .ok r)
    (hcap : runningCount ts < cfg.maxConcurrentTasks) :
    (∃ t, getTask (handlePostResearch cfg ts body tid now).tasks tid = some t
            ∧ t.progress = none)
    ∧ onProgressCallback (handlePostResearch cfg ts body tid now).tasks tid p =
        (handlePostResearch cfg ts body tid now).tasks
    ∧ (∃ v, handleGetStatus (handlePostResearch cfg ts body tid now).tasks tid = some v
              ∧ v.progress = none ∧ v.status = .running) := by
  rw [handlePost_accepted cfg ts body tid now r hok hcap]
  have hget := getTask_setTask_self ts tid
    { id := tid, query := r.query, depth := r.depth, breadth := r.breadth,
      status := .running, startTime := now }
  refine ⟨⟨_, hget, rfl⟩, ?_, ?_⟩
  · unfold onProgressCallback
    rw [hget]
  · unfold handleGetStatus
    rw [hget]
    exact ⟨_, rfl, rfl, rfl⟩

/-- Witness for C8: the concrete accepted task has no progress manager, the
callback leaves the store unchanged, and the status view shows no progress. -/
theorem progress_updates_dropped_witness :
    ResearchRequestSchema.safeParse ⟨.str "hello", .missing, .missing⟩ = .ok ⟨"hello", 3, 3⟩
    ∧ runningCount [] < ServerConfig.maxConcurrentTasks ⟨5⟩
    ∧ onProgressCallback
        (handlePostResearch ⟨5⟩ [] ⟨.str "hello", .missing, .missing⟩ "t1" 10).tasks "t1"
        ⟨1, 3, 1, 3, none, 4, 0⟩ =
      (handlePostResearch ⟨5⟩ [] ⟨.str "hello", .missing, .missing⟩ "t1" 10).tasks :=
  ⟨rfl, by decide,
   (progress_updates_dropped ⟨5⟩ [] ⟨.str "hello", .missing, .missing⟩ "t1" 10
     ⟨"hello", 3, 3⟩ ⟨1, 3, 1, 3, none, 4, 0⟩ rfl (by decide)).2.1⟩

/-! ### Claim C9 -/

lemma parseQueryField_ok {f : JField} {q : String} (h : parseQueryField f = .ok q) :
    f = .str q ∧ 1 ≤ q.length ∧ q.length ≤ 1000 := by
  cases f with
  | str s =>
    simp only [parseQueryField] at h
    split at h
    · obtain rfl : s = q := by injection h
      exact ⟨rfl, by assumption⟩
    · exact absurd h (by simp)
  | missing => exact absurd h (by simp [parseQueryField])
  | int n => exact absurd h (by simp [parseQueryField])
  | nonIntNum => exact absurd h (by simp [parseQueryField])
  | other => exact absurd h (by simp [parseQueryField])

lemma parseBoundedIntField_ok {name : String} {f : JField} {n : Int}
    (h : parseBoundedIntField name f = .ok n) :
    1 ≤ n ∧ n ≤ 5 ∧ (f = .missing → n = 3) ∧ (f = .missing ∨ f = .int n) := by
  cases f with
  | missing =>
    simp only [parseBoundedIntField] at h
    obtain rfl : (3 : Int) = n := by injection h
    exact ⟨by norm_num, by norm_num, fun _ => rfl, Or.inl rfl⟩
  | int m =>
    simp only [parseBoundedIntField] at h
    split at h
    next hmb =>
      obtain rfl : m = n := by injection h
      exact ⟨hmb.1, hmb.2, by simp, Or.inr rfl⟩
    next hmb => exact absurd h (by simp)
  | str s => exact absurd h (by simp [parseBoundedIntField])
  | nonIntNum => exact absurd h (by simp [parseBoundedIntField])
  | other => exact absurd h (by simp [parseBoundedIntField])

/-- Claim C9: a request accepted by the schema carries exactly a string query
of length 1..1000 (hence non-empty), and integer depth and breadth in 1..5
that default to 3 when the field is absent. -/
theorem schema_accepts_only_bounded_requests (body : RequestBody) (r : ResearchRequest)
    (h : ResearchRequestSchema.safeParse body = .ok r) :
    body.query = .str r.query
    ∧ 1 ≤ r.query.length ∧ r.query.length ≤ 1000 ∧ r.query ≠ ""
    ∧ 1 ≤ r.depth ∧ r.depth ≤ 5 ∧ 1 ≤ r.breadth ∧ r.breadth ≤ 5
    ∧ (body.depth = .missing → r.depth = 3)
    ∧ (body.breadth = .missing → r.breadth = 3)
    ∧ (body.depth = .missing ∨ body.depth = .int r.depth)
    ∧ (body.breadth = .missing ∨ body.breadth = .int r.breadth) := by
  unfold ResearchRequestSchema.safeParse at h
  cases hq : parseQueryField body.query with
  | error e => rw [hq] at h; simp at h
  | ok q0 =>
    cases hd : parseBoundedIntField "depth" body.depth with
    | error e => rw [hq, hd] at h; simp at h
    | ok d0 =>
      cases hb : parseBoundedIntField "breadth" body.breadth with
      | error e => rw [hq, hd, hb] at h; simp at h
      | ok b0 =>
        rw [hq, hd, hb] at h
        simp only [Except.ok.injEq] at h
        obtain rfl : r = ⟨q0, d0, b0⟩ := h.symm
        obtain ⟨hqs, hq1, hq2⟩ := parseQueryField_ok hq
        obtain ⟨hd1, hd2, hd3, hd4⟩ := parseBoundedIntField_ok hd
        obtain ⟨hb1, hb2, hb3, hb4⟩ := parseBoundedIntField_ok hb
        refine ⟨hqs, hq1, hq2, ?_, hd1, hd2, hb1, hb2, hd3, hb3, hd4, hb4⟩
        intro he
        have hq0 : q0 = "" := by simpa using he
        rw [hq0] at hq1
        exact absurd hq1 (by decide)

/-- Witness for C9: the schema accepts a two-character query with depth
omitted (defaulting to 3) and breadth 5. -/
theorem schema_accepts_only_bounded_requests_witness :
    ResearchRequestSchema.safeParse ⟨.str "hi", .missing, .int 5⟩ = .ok ⟨"hi", 3, 5⟩
    ∧ (1 : Int) ≤ 3 ∧ (3 : Int) ≤ 5 :=
  ⟨rfl,
   (schema_accepts_only_bounded_requests ⟨.str "hi", .missing, .int 5⟩ ⟨"hi", 3, 5⟩ rfl).2.2.2.2.1,
   (schema_accepts_only_bounded_requests ⟨.str "hi", .missing, .int 5⟩ ⟨"hi", 3, 5⟩ rfl).2.2.2.2.2.1⟩

/-! ### Claim C10 -/

lemma jsCeilDiv_eq_ceil (t : Nat) (l : Int) (hl : 0 < l) :
    jsCeilDiv t l = ⌈(t : ℚ) / (l : ℚ)⌉ := by
  unfold jsCeilDiv
  rw [if_pos hl]
  have hl' : (0 : ℚ) < (l : ℚ) := by exact_mod_cast hl
  have hdm := Int.ediv_add_emod ((t : Int) + l - 1) l
  have hr0 : 0 ≤ ((t : Int) + l - 1) % l := Int.emod_nonneg _ (ne_of_gt hl)
  have hrl : ((t : Int) + l - 1) % l < l := Int.emod_lt_of_pos _ hl
  set q := ((t : Int) + l - 1) / l with hq
  symm
  rw [Int.ceil_eq_iff]
  constructor
  · rw [lt_div_iff₀ hl']
    have hgoal : ((q : Int) - 1) * l < (t : Int) := by nlinarith [hdm, hr0]
    exact_mod_cast hgoal
  · rw [div_le_iff₀ hl']
    have hgoal : (t : Int) ≤ q * l := by nlinarith [hdm, hrl]
    exact_mod_cast hgoal

lemma jsSlice_sublist {α : Type} (l : List α) (a b : Int) : (jsSlice l a b).Sublist l := by
  unfold jsSlice
  exact (List.drop_sublist _ _).trans (List.take_sublist _ _)

lemma sorted_jsSlice {l : List ResearchTask} (h : List.Sorted taskDescOrder l)
    (a b : Int) : List.Sorted taskDescOrder (jsSlice l a b) :=
  List.Pairwise.sublist (jsSlice_sublist l a b) h

lemma tdiv_cast_eq_floor (t : Nat) (m : Int) (hm : 0 < m) :
    Int.tdiv (t : Int) m = ⌊(t : ℚ) / (m : ℚ)⌋ := by
  have hdm := Int.tdiv_add_tmod (t : Int) m
  have hr0 : 0 ≤ Int.tmod (t : Int) m := Int.tmod_nonneg m (by positivity)
  have hrm : Int.tmod (t : Int) m < m := Int.tmod_lt_of_pos _ hm
  have hm' : (0 : ℚ) < (m : ℚ) := by exact_mod_cast hm
  symm
  rw [Int.floor_eq_iff]
  constructor
  · rw [le_div_iff₀ hm']
    have h2 : (Int.tdiv (t : Int) m) * m ≤ (t : Int) := by nlinarith [hdm, hr0]
    exact_mod_cast h2
  · rw [div_lt_iff₀ hm']
    have h2 : (t : Int) < (Int.tdiv (t : Int) m + 1) * m := by nlinarith [hdm, hrm]
    exact_mod_cast h2

lemma jsCeilDiv_eq_ceil_neg (t : Nat) (l : Int) (hl : l < 0) :
    jsCeilDiv t l = ⌈(t : ℚ) / (l : ℚ)⌉ := by
  unfold jsCeilDiv
  rw [if_neg (by omega : ¬ 0 < l)]
  obtain ⟨m, hm, rfl⟩ : ∃ m : Int, 0 < m ∧ l = -m := ⟨-l, by omega, by omega⟩
  rw [Int.tdiv_neg]
  rw [tdiv_cast_eq_floor t m hm]
  rw [show ((-m : ℤ) : ℚ) = -(m : ℚ) from by push_cast; ring]
  rw [div_neg, Int.ceil_neg]

lemma jsCeilDiv_eq_ceil_of_ne (t : Nat) (l : Int) (hl : l ≠ 0) :
    jsCeilDiv t l = ⌈(t : ℚ) / (l : ℚ)⌉ := by
  rcases lt_or_gt_of_ne hl with h | h
  · exact jsCeilDiv_eq_ceil_neg t l h
  · exact jsCeilDiv_eq_ceil t l h

lemma effective_limit_ne_zero (limitQ : Option Int) :
    min (jsOrDefault limitQ 10) 50 ≠ 0 := by
  cases limitQ with
  | none => decide
  | some n =>
    by_cases h0 : n = 0
    · subst h0; decide
    · simp only [jsOrDefault, h0, if_false]
      omega

/-- Counterexample to claim C10 as stated: a listing request with
`limit = 0` gets effective page size 10 (the `|| 10` fallback), not
`min 0 50 = 0` as the claim's formula demands. -/
theorem list_endpoint_limit_zero_not_min :
    (handleListTasks demoStore (some 1) (some 0) none).pagination.limit = 10
    ∧ (handleListTasks demoStore (some 1) (some 0) none).pagination.limit ≠
        min 0 50 := by
  refine ⟨?_, ?_⟩ <;> decide

/-- Claim C10 (amended): for every GET /research listing request, the
effective page size is the minimum of the requested limit and 50, except that
a requested limit that is absent, unparseable, or 0 falls back to the default
10; the returned tasks are sorted by start time descending; the reported
total counts the stored tasks matching the optional status filter before
slicing; and pages is the ceiling of total divided by the effective limit. -/
theorem list_endpoint_pagination_spec (ts : Tasks) (pageQ limitQ : Option Int)
    (statusQ : Option TaskStatus) :
    (∀ n, limitQ = some n → n ≠ 0 →
        (handleListTasks ts pageQ limitQ statusQ).pagination.limit = min n 50)
    ∧ ((limitQ = none ∨ limitQ = some 0) →
        (handleListTasks ts pageQ limitQ statusQ).pagination.limit = 10)
    ∧ List.Sorted taskDescOrder (handleListTasks ts pageQ limitQ statusQ).tasks
    ∧ (handleListTasks ts pageQ limitQ statusQ).pagination.total =
        (match statusQ with
         | some s => ((ts.map Prod.snd).filter (fun t => t.status = s)).length
         | none => ts.length)
    ∧ (handleListTasks ts pageQ limitQ statusQ).pagination.pages =
        ⌈((handleListTasks ts pageQ limitQ statusQ).pagination.total : ℚ) /
          ((handleListTasks ts pageQ limitQ statusQ).pagination.limit : ℚ)⌉ := by
  refine ⟨?_, ?_, ?_, ?_, ?_⟩
  · intro n hn h0
    subst hn
    show min (jsOrDefault (some n) 10) 50 = min n 50
    simp [jsOrDefault, h0]
  · rintro (h | h) <;> subst h
    · show min (jsOrDefault none 10) 50 = 10
      decide
    · show min (jsOrDefault (some 0) 10) 50 = 10
      decide
  · exact sorted_jsSlice (List.sorted_insertionSort taskDescOrder _) _ _
  · cases statusQ with
    | some s => rfl
    | none => exact List.length_map _ _
  · exact jsCeilDiv_eq_ceil_of_ne _ _ (effective_limit_ne_zero limitQ)

/-- Witness for the amended C10: a nonzero requested limit of 2 is capped as
`min 2 50`, and a requested limit of 0 falls back to 10. -/
theorem list_endpoint_pagination_spec_witness :
    ((some (2 : Int) = some 2 ∧ (2 : Int) ≠ 0)
      ∧ (handleListTasks demoStore (some 1) (some 2) none).pagination.limit = min 2 50)
    ∧ (handleListTasks demoStore (some 1) (some 0) none).pagination.limit = 10 :=
  ⟨⟨⟨rfl, by decide⟩,
    (list_endpoint_pagination_spec demoStore (some 1) (some 2) none).1 2 rfl (by decide)⟩,
   (list_endpoint_pagination_spec demoStore (some 1) (some 0) none).2.1 (Or.inr rfl)⟩

/-! ### De-duplication lemmas -/

lemma mem_dedupAux {a : String} : ∀ (seen xs : List String),
    a ∈ dedupAux seen xs ↔ a ∈ xs ∧ a ∉ seen := by
  intro seen xs
  induction xs generalizing seen with
  | nil => simp [dedupAux]
  | cons x rest ih =>
    by_cases hx : x ∈ seen
    · rw [show dedupAux seen (x :: rest) = dedupAux seen rest from by simp [dedupAux, hx]]
      rw [ih seen]
      constructor
      · rintro ⟨h1, h2⟩; exact ⟨List.mem_cons_of_mem x h1, h2⟩
      · rintro ⟨h1, h2⟩
        rcases List.mem_cons.mp h1 with h1 | h1
        · subst h1; exact absurd hx h2
        · exact ⟨h1, h2⟩
    · rw [show dedupAux seen (x :: rest) = x :: dedupAux (x :: seen) rest from by
        simp [dedupAux, hx]]
      rw [List.mem_cons, ih (x :: seen)]
      constructor
      · rintro (h | ⟨h1, h2⟩)
        · subst h; exact ⟨List.mem_cons_self a rest, hx⟩
        · exact ⟨List.mem_cons_of_mem x h1, fun hs => h2 (List.mem_cons_of_mem x hs)⟩
      · rintro ⟨h1, h2⟩
        rcases List.mem_cons.mp h1 with h1 | h1
        · exact Or.inl h1
        · by_cases hax : a = x
          · exact Or.inl hax
          · exact Or.inr ⟨h1, fun hs => (List.mem_cons.mp hs).elim hax h2⟩

lemma nodup_dedupAux : ∀ (seen xs : List String), (dedupAux seen xs).Nodup := by
  intro seen xs
  induction xs generalizing seen with
  | nil => simp [dedupAux]
  | cons x rest ih =>
    by_cases hx : x ∈ seen
    · simpa [dedupAux, hx] using ih seen
    · rw [show dedupAux seen (x :: rest) = x :: dedupAux (x :: seen) rest from by
        simp [dedupAux, hx]]
      rw [List.nodup_cons]
      refine ⟨?_, ih (x :: seen)⟩
      rw [mem_dedupAux]
      rintro ⟨-, h2⟩
      exact h2 (List.mem_cons_self x seen)

lemma dedupAux_sublist : ∀ (seen xs : List String), (dedupAux seen xs).Sublist xs := by
  intro seen xs
  induction xs generalizing seen with
  | nil => simp [dedupAux]
  | cons x rest ih =>
    by_cases hx : x ∈ seen
    · rw [show dedupAux seen (x :: rest) = dedupAux seen rest from by simp [dedupAux, hx]]
      exact (ih seen).cons x
    · rw [show dedupAux seen (x :: rest) = x :: dedupAux (x :: seen) rest from by
        simp [dedupAux, hx]]
      exact (ih (x :: seen)).cons₂ x

lemma dedupList_nodup (xs : List String) : (dedupList xs).Nodup := nodup_dedupAux [] xs

lemma dedupList_sublist (xs : List String) : (dedupList xs).Sublist xs := dedupAux_sublist [] xs

lemma mem_dedupList {a : String} {xs : List String} : a ∈ dedupList xs ↔ a ∈ xs := by
  simp [dedupList, mem_dedupAux]

/-! ### Run-shape lemmas -/

lemma deepResearch_ok {O : Oracles} {q : String} {d b : Nat} {out : FrameOut}
    (h : deepResearch O q d b = .ok out) :
    out = runFrame O d b q [] initialProgress
    ∧ (1 ≤ d ∧ d ≤ 5 ∧ 1 ≤ b ∧ b ≤ 5) := by
  unfold deepResearch at h
  split at h
  next hcond =>
    refine ⟨?_, hcond⟩
    injection h with h
    exact h.symm
  next hcond => exact absurd h (by simp)

lemma runFrame_result_nodup (O : Oracles) (d b : Nat) (t : String) (acc : List String)
    (st : ProgressState) :
    (runFrame O d b t acc st).result.learnings.Nodup
    ∧ (runFrame O d b t acc st).result.sources.Nodup := by
  cases d with
  | zero => exact ⟨dedupList_nodup _, dedupList_nodup _⟩
  | succ d' =>
    rcases hp : O.plan t acc b with e | qs0
    · refine ⟨?_, ?_⟩ <;> (simp only [runFrame, hp]; exact dedupList_nodup _)
    · by_cases hq : (dedupSiblings qs0).isEmpty = true
      · refine ⟨?_, ?_⟩ <;>
          (simp only [runFrame, hp]; rw [if_pos hq]; exact dedupList_nodup _)
      · refine ⟨?_, ?_⟩ <;>
          (simp only [runFrame, hp]; rw [if_neg hq]; exact dedupList_nodup _)

/-! ### Claim C5 -/

/-- Claim C5: the result of every resolved run has no exact-text duplicate
learnings and no duplicate sources; and the Result Merger keeps exactly the
elements of its input streams with first-seen insertion order preserved (its
output is a duplicate-free subsequence of the concatenated input with the same
members). -/
theorem final_result_deduplicated (O : Oracles) (q : String) (d b : Nat) (out : FrameOut)
    (h : deepResearch O q d b = .ok out) :
    out.result.learnings.Nodup ∧ out.result.sources.Nodup
    ∧ ∀ rs : List ResearchResult,
        (mergeResults rs).learnings.Nodup
        ∧ (mergeResults rs).sources.Nodup
        ∧ (mergeResults rs).learnings.Sublist (rs.map ResearchResult.learnings).flatten
        ∧ (∀ x, x ∈ (mergeResults rs).learnings ↔ x ∈ (rs.map ResearchResult.learnings).flatten) := by
  obtain ⟨hout, -⟩ := deepResearch_ok h
  subst hout
  obtain ⟨h1, h2⟩ := runFrame_result_nodup O d b q [] initialProgress
  exact ⟨h1, h2, fun rs =>
    ⟨dedupList_nodup _, dedupList_nodup _, dedupList_sublist _, fun x => mem_dedupList⟩⟩

/-- Witness for C5: the depth-2 demo run resolves and its learnings are
duplicate-free even though both branches contribute. -/
theorem final_result_deduplicated_witness :
    deepResearch demoOracles "root" 2 2 = .ok demoRunOut
    ∧ demoRunOut.result.learnings.Nodup :=
  ⟨rfl, (final_result_deduplicated demoOracles "root" 2 2 demoRunOut rfl).1⟩

/-! ### Claim C6 -/

lemma runUnit_fetchFail (O : Oracles) (q : SubQuery)
    (hf : ∀ s, ∃ e, O.fetch s = .error e) : runUnit O q = (⟨[], []⟩, []) := by
  obtain ⟨e, he⟩ := hf q.text
  simp [runUnit, he]

lemma runQueries_fetchFail (O : Oracles) (childOpt : Option ChildFun) (acc : List String)
    (hf : ∀ s, ∃ e, O.fetch s = .error e) :
    ∀ (qs : List SubQuery) (st : ProgressState),
      (runQueries O childOpt acc qs st).learnings = []
      ∧ (runQueries O childOpt acc qs st).sources = [] := by
  intro qs
  induction qs with
  | nil => intro st; exact ⟨rfl, rfl⟩
  | cons qq rest ih =>
    intro st
    have hu := runUnit_fetchFail O qq hf
    obtain ⟨ihl, ihs⟩ := ih ({ st with completedQueries := st.completedQueries + 1,
                                       currentQuery := some qq.text })
    cases childOpt with
    | some child => simp [runQueries, hu, runChildren, ihl, ihs]
    | none => simp [runQueries, hu, ihl, ihs]

lemma runFrame_fetchFail (O : Oracles) (hf : ∀ s, ∃ e, O.fetch s = .error e)
    (d b : Nat) (t : String) (st : ProgressState) :
    (runFrame O d b t [] st).result = ⟨[], []⟩ := by
  cases d with
  | zero => rfl
  | succ d' =>
    rcases hp : O.plan t [] b with e | qs0
    · simp only [runFrame, hp]
      rfl
    · by_cases hq : (dedupSiblings qs0).isEmpty = true
      · simp only [runFrame, hp]
        rw [if_pos hq]
        rfl
      · simp only [runFrame, hp]
        rw [if_neg hq]
        obtain ⟨hl, hs⟩ := runQueries_fetchFail O
          (if d' = 0 then none
           else some (fun t2 a s => runFrame O d' (max 1 (b / 2)) t2 a s)) [] hf
          (dedupSiblings qs0)
          { st with totalQueries := st.totalQueries + (dedupSiblings qs0).length }
        rw [hl, hs]
        rfl

/-- Claim C6: a run whose Content Source Adapter always fails still resolves
(no exception escapes) and returns a valid, empty ResearchResult. -/
theorem adapter_failures_tolerated (O : Oracles) (q : String) (d b : Nat)
    (hd : 1 ≤ d ∧ d ≤ 5 ∧ 1 ≤ b ∧ b ≤ 5)
    (hf : ∀ s, ∃ e, O.fetch s = Except.error e) :
    deepResearch O q d b = Except.ok (runFrame O d b q [] initialProgress)
    ∧ (runFrame O d b q [] initialProgress).result = ⟨[], []⟩ := by
  constructor
  · unfold deepResearch
    rw [if_pos hd]
  · exact runFrame_fetchFail O hf d b q initialProgress

/-- Witness for C6: the always-failing oracles resolve at depth 3 breadth 3
with an empty result. -/
theorem adapter_failures_tolerated_witness :
    (1 ≤ 3 ∧ 3 ≤ 5 ∧ 1 ≤ 3 ∧ 3 ≤ 5)
    ∧ (∀ s, ∃ e, failingOracles.fetch s = Except.error e)
    ∧ deepResearch failingOracles "root" 3 3 =
        Except.ok (runFrame failingOracles 3 3 "root" [] initialProgress)
    ∧ (runFrame failingOracles 3 3 "root" [] initialProgress).result = ⟨[], []⟩ :=
  ⟨by omega, fun s => ⟨Failure.adapterFailure "network down", rfl⟩,
   (adapter_failures_tolerated failingOracles "root" 3 3 (by omega)
      (fun s => ⟨Failure.adapterFailure "network down", rfl⟩)).1,
   (adapter_failures_tolerated failingOracles "root" 3 3 (by omega)
      (fun s => ⟨Failure.adapterFailure "network down", rfl⟩)).2⟩

/-! ### Claim C7 -/

lemma runUnit_strip (O : Oracles) (q : SubQuery) :
    (runUnit (stripFollowUps O) q).1.learnings = (runUnit O q).1.learnings
    ∧ (runUnit (stripFollowUps O) q).2 = (runUnit O q).2 := by
  simp only [runUnit, stripFollowUps]
  rcases hf : O.fetch q.text with e | docs
  · simp
  · simp only []
    rcases hx : O.extract q docs with e | f <;> simp [hx]

lemma runQueries_none_strip (O : Oracles) (acc : List String) :
    ∀ (qs : List SubQuery) (st : ProgressState),
      runQueries (stripFollowUps O) none acc qs st = runQueries O none acc qs st := by
  intro qs
  induction qs with
  | nil => intro st; rfl
  | cons qq rest ih =>
    intro st
    obtain ⟨h1, h2⟩ := runUnit_strip O qq
    simp only [runQueries, h1, h2, ih]

lemma runQueries_none_spawned (O : Oracles) (acc : List String) :
    ∀ (qs : List SubQuery) (st : ProgressState),
      (runQueries O none acc qs st).spawnedChildren = 0 := by
  intro qs
  induction qs with
  | nil => intro st; rfl
  | cons qq rest ih =>
    intro st
    simp only [runQueries, ih]

lemma runFrame_one_strip (O : Oracles) (b : Nat) (t : String) (acc : List String)
    (st : ProgressState) :
    runFrame (stripFollowUps O) (0 + 1) b t acc st = runFrame O (0 + 1) b t acc st := by
  have hplan : (stripFollowUps O).plan = O.plan := rfl
  rcases hp : O.plan t acc b with e | qs0
  · simp only [runFrame, hplan, hp]
  · simp only [runFrame, hplan, hp, if_true]
    by_cases hq : (dedupSiblings qs0).isEmpty = true
    · rw [if_pos hq, if_pos hq]
    · rw [if_neg hq, if_neg hq]
      rw [runQueries_none_strip O acc (dedupSiblings qs0)]

lemma runFrame_one_spawned (O : Oracles) (b : Nat) (t : String) (acc : List String)
    (st : ProgressState) : (runFrame O (0 + 1) b t acc st).spawnedChildren = 0 := by
  rcases hp : O.plan t acc b with e | qs0
  · simp only [runFrame, hp]
    rfl
  · simp only [runFrame, hp, if_true]
    by_cases hq : (dedupSiblings qs0).isEmpty = true
    · rw [if_pos hq]
      rfl
    · rw [if_neg hq]
      exact runQueries_none_spawned O acc (dedupSiblings qs0) _

/-- Claim C7: a run with `maxDepth = 1` spawns no child frame, and its entire
outcome is unchanged when every follow-up question the extractor produces is
discarded — follow-ups of the single level are never consumed. -/
theorem depth_one_no_recursion (O : Oracles) (q : String) (b : Nat) (out : FrameOut)
    (h : deepResearch O q 1 b = .ok out) :
    out.spawnedChildren = 0
    ∧ deepResearch (stripFollowUps O) q 1 b = deepResearch O q 1 b := by
  obtain ⟨hout, hd⟩ := deepResearch_ok h
  constructor
  · rw [hout]
    exact runFrame_one_spawned O b q [] initialProgress
  · unfold deepResearch
    rw [if_pos hd, if_pos hd]
    rw [runFrame_one_strip O b q [] initialProgress]

/-- Witness for C7: the depth-1 demo run resolves with zero spawned child
frames although its extractor returns follow-up questions. -/
theorem depth_one_no_recursion_witness :
    deepResearch demoOracles "root" 1 2 = .ok demoDepthOneOut
    ∧ demoDepthOneOut.spawnedChildren = 0 :=
  ⟨rfl, (depth_one_no_recursion demoOracles "root" 2 demoDepthOneOut rfl).1⟩

/-! ### Claim C4 -/

lemma runChildren_spec (child : ChildFun) (hc : ∀ t a s, FrameSpec s (child t a s))
    (acc : List String) :
    ∀ (fqs : List String) (st : ProgressState),
      (runChildren child acc fqs st).progress.totalQueries
        = st.totalQueries + (runChildren child acc fqs st).dispatched.length
      ∧ (runChildren child acc fqs st).progress.completedQueries
        = st.completedQueries + (runChildren child acc fqs st).dispatched.length
      ∧ (ProgressOk st → ∀ s ∈ (runChildren child acc fqs st).trace, ProgressOk s) := by
  intro fqs
  induction fqs with
  | nil =>
    intro st
    exact ⟨rfl, rfl, fun _ s hs => absurd hs (List.not_mem_nil s)⟩
  | cons f rest ih =>
    intro st
    obtain ⟨hc1, hc2, hc3⟩ := hc f acc st
    obtain ⟨ih1, ih2, ih3⟩ := ih (child f acc st).progress
    simp only [runChildren, List.length_append]
    refine ⟨by omega, by omega, ?_⟩
    intro hok s hs
    rcases List.mem_append.mp hs with hs | hs
    · exact hc3 hok s hs
    · refine ih3 ?_ s hs
      unfold ProgressOk at hok ⊢
      omega

lemma runQueries_spec (O : Oracles) (childOpt : Option ChildFun)
    (hc : ∀ child, childOpt = some child → ∀ t a s, FrameSpec s (child t a s))
    (acc : List String) :
    ∀ (qs : List SubQuery) (st : ProgressState),
      (runQueries O childOpt acc qs st).progress.totalQueries + qs.length
        = st.totalQueries + (runQueries O childOpt acc qs st).dispatched.length
      ∧ (runQueries O childOpt acc qs st).progress.completedQueries
        = st.completedQueries + (runQueries O childOpt acc qs st).dispatched.length
      ∧ (st.completedQueries + qs.length ≤ st.totalQueries →
          ∀ s ∈ (runQueries O childOpt acc qs st).trace, ProgressOk s) := by
  intro qs
  induction qs with
  | nil =>
    intro st
    exact ⟨rfl, rfl, fun _ s hs => absurd hs (List.not_mem_nil s)⟩
  | cons qq rest ih =>
    intro st
    cases childOpt with
    | none =>
      obtain ⟨ih1, ih2, ih3⟩ := ih { st with completedQueries := st.completedQueries + 1,
                                             currentQuery := some qq.text }
      have e1 : ({ st with completedQueries := st.completedQueries + 1,
                           currentQuery := some qq.text } : ProgressState).totalQueries
          = st.totalQueries := rfl
      have e2 : ({ st with completedQueries := st.completedQueries + 1,
                           currentQuery := some qq.text } : ProgressState).completedQueries
          = st.completedQueries + 1 := rfl
      simp only [runQueries, List.length_cons, List.length_append, List.nil_append,
        List.length_nil]
      refine ⟨by omega, by omega, ?_⟩
      intro hok s hs
      rcases List.mem_cons.mp hs with rfl | hs
      · unfold ProgressOk
        omega
      · refine ih3 ?_ s hs
        omega
    | some child =>
      obtain ⟨cs1, cs2, cs3⟩ := runChildren_spec child (hc child rfl)
        (acc ++ (runUnit O qq).1.learnings) (runUnit O qq).1.followUpQuestions
        { st with completedQueries := st.completedQueries + 1, currentQuery := some qq.text }
      obtain ⟨ih1, ih2, ih3⟩ := ih
        (runChildren child (acc ++ (runUnit O qq).1.learnings)
          (runUnit O qq).1.followUpQuestions
          { st with completedQueries := st.completedQueries + 1,
                    currentQuery := some qq.text }).progress
      have e1 : ({ st with completedQueries := st.completedQueries + 1,
                           currentQuery := some qq.text } : ProgressState).totalQueries
          = st.totalQueries := rfl
      have e2 : ({ st with completedQueries := st.completedQueries + 1,
                           currentQuery := some qq.text } : ProgressState).completedQueries
          = st.completedQueries + 1 := rfl
      simp only [runQueries, List.length_cons, List.length_append]
      refine ⟨by omega, by omega, ?_⟩
      intro hok s hs
      rcases List.mem_cons.mp hs with rfl | hs
      · unfold ProgressOk
        omega
      · rcases List.mem_append.mp hs with hs | hs
        · refine cs3 ?_ s hs
          unfold ProgressOk
          omega
        · refine ih3 ?_ s hs
          omega

lemma runFrame_spec (O : Oracles) :
    ∀ (d b : Nat) (t : String) (acc : List String) (st : ProgressState),
      FrameSpec st (runFrame O d b t acc st) := by
  intro d
  induction d with
  | zero =>
    intro b t acc st
    exact ⟨rfl, rfl, fun _ s hs => absurd hs (List.not_mem_nil s)⟩
  | succ d' ih =>
    intro b t acc st
    rcases hp : O.plan t acc b with e | qs0
    · unfold FrameSpec
      simp only [runFrame, hp]
      exact ⟨rfl, rfl, fun _ s hs => absurd hs (List.not_mem_nil s)⟩
    · by_cases hq : (dedupSiblings qs0).isEmpty = true
      · unfold FrameSpec
        simp only [runFrame, hp]
        rw [if_pos hq]
        exact ⟨rfl, rfl, fun _ s hs => absurd hs (List.not_mem_nil s)⟩
      · have hc : ∀ child, (if d' = 0 then none
              else some (fun t2 a s => runFrame O d' (max 1 (b / 2)) t2 a s)
              : Option ChildFun) = some child →
              ∀ t2 a s, FrameSpec s (child t2 a s) := by
          intro child hch t2 a s
          by_cases hd0 : d' = 0
          · rw [if_pos hd0] at hch
            exact absurd hch (by simp)
          · rw [if_neg hd0] at hch
            have hcc := Option.some.inj hch
            rw [← hcc]
            exact ih (max 1 (b / 2)) t2 a s
        obtain ⟨q1, q2, q3⟩ := runQueries_spec O
          (if d' = 0 then none
           else some (fun t2 a s => runFrame O d' (max 1 (b / 2)) t2 a s)) hc acc
          (dedupSiblings qs0)
          { st with totalQueries := st.totalQueries + (dedupSiblings qs0).length }
        have e1 : ({ st with totalQueries := st.totalQueries + (dedupSiblings qs0).length }
            : ProgressState).totalQueries
            = st.totalQueries + (dedupSiblings qs0).length := rfl
        have e2 : ({ st with totalQueries := st.totalQueries + (dedupSiblings qs0).length }
            : ProgressState).completedQueries = st.completedQueries := rfl
        unfold FrameSpec
        simp only [runFrame, hp]
        rw [if_neg hq]
        dsimp only
        refine ⟨by omega, by omega, ?_⟩
        intro hok s hs
        unfold ProgressOk at hok
        rcases List.mem_cons.mp hs with rfl | hs
        · unfold ProgressOk
          omega
        · exact q3 (by omega) s hs

/-- Claim C4: for every run that resolves, completedQueries equals
totalQueries at resolution and equals the number of SubQueries dispatched in
the whole run (each dispatched SubQuery, successful or failed, completes
exactly once), and completedQueries never exceeds totalQueries in any
progress snapshot emitted during the run. -/
theorem progress_counters_balanced (O : Oracles) (q : String) (d b : Nat) (out : FrameOut)
    (h : deepResearch O q d b = .ok out) :
    out.progress.completedQueries = out.progress.totalQueries
    ∧ out.progress.completedQueries = out.dispatched.length
    ∧ ∀ s ∈ out.trace, s.completedQueries ≤ s.totalQueries := by
  obtain ⟨hout, -⟩ := deepResearch_ok h
  subst hout
  obtain ⟨h1, h2, h3⟩ := runFrame_spec O d b q [] initialProgress
  have e1 : initialProgress.totalQueries = 0 := rfl
  have e2 : initialProgress.completedQueries = 0 := rfl
  refine ⟨by omega, by omega, fun s hs => h3 ?_ s hs⟩
  unfold ProgressOk
  omega

/-- Witness for C4: the depth-2 demo run resolves with balanced counters. -/
theorem progress_counters_balanced_witness :
    deepResearch demoOracles "root" 2 2 = .ok demoRunOut
    ∧ demoRunOut.progress.completedQueries = demoRunOut.progress.totalQueries :=
  ⟨rfl, (progress_counters_balanced demoOracles "root" 2 2 demoRunOut rfl).1⟩
